import Mathlib

/-!
Verification of the criu-image-streamer core against its specification.

This file gives a shallow embedding, in Lean 4, of the parts of the
streamer relevant to the checked claims:

* the capture serializer (`src/capture.rs`): marker generation, chunking
  of producer-pipe data, filename-marker elision, the image EOF marker;
* the restore deserializer (`src/extract.rs`): pending-marker reassembly
  ordered by sequence number, marker application to the image store, the
  single-shard fast path of `get_next_readable_shard`, and the three
  consumer serve phases of `serve_img`;
* the chunked codec framing (`src/util.rs`): `read_bytes_next` and
  `pb_read_next`;
* the in-memory image store (`src/image_store/mem.rs`): `remove`,
  `remove_by_prefix` and `insert`.

Modelling conventions:
* Byte streams are `List Nat` (each element one byte).
* Rust `u64` sequence counters wrap; the wrap is kept explicit as
  `% U64_MOD`.
* `i32` quantities (pipe capacities, readable byte counts, chunk sizes)
  are `Int`; all claims restrict to the nonnegative ranges the kernel
  actually returns, where Rust and Lean division agree.
* Fallible Rust code returning `anyhow::Result` is `Except`. For the
  deserializer the error also carries the state at the moment the error
  is raised, mirroring the fact that `&mut self` methods leave their
  receiver in that state when they return `Err`. A Rust `assert!`/
  `ensure!` failure is modelled as an error outcome.
* Rust `HashMap`s are association lists with unique keys; the hash
  iteration order is modelled by the list order (arbitrary but fixed,
  which is all the claims rely on).
* Loops whose variant is a decreasing byte count are modelled with an
  explicit fuel argument that provably dominates the iteration count.
-/

namespace CriuStreamer

/-- Wrap modulus of the Rust `u64` sequence counters. -/
def U64_MOD : Nat := 2 ^ 64

/-! ## Markers (proto/image.proto, as used by capture.rs and extract.rs)

A marker record has a `seq` field (u64) and a tagged body:
filename / file_data(u32) / file_eof(bool) / image_eof(bool). -/

inductive Body where
  | Filename (filename : String)
  | FileData (size : Nat)
  | FileEof (b : Bool)
  | ImageEof (b : Bool)
deriving Repr, DecidableEq

structure Marker where
  seq : Nat
  body : Option Body
deriving Repr, DecidableEq

/-- Does the marker carry an `ImageEof` body? -/
def isImageEofMarker (m : Marker) : Bool :=
  match m.body with
  | some (.ImageEof _) => true
  | _ => false

/-! ## Capture serializer (src/capture.rs)

`ImageSerializer` holds a heap of shards, the constant
`shard_pipe_capacity`, the `seq` counter and the `current_filename`
used to elide redundant `Filename` markers. The claims C1 and C3 are
about the stream of markers emitted across all shards, so the state
records the emitted markers as a trace, in emission order; which shard
each chunk goes to (the remaining-space heuristic inside `write_chunk`)
does not affect that trace and is not modelled here. -/

/-- SHARDS_PER_PIPE constant from capture.rs. -/
def SHARDS_PER_PIPE : Int := 8

structure SerializerState where
  shard_pipe_capacity : Int
  seq : Nat
  current_filename : Option String
  emitted : List Marker
deriving Repr, DecidableEq

/-- `ImageSerializer::gen_marker`: returns a marker carrying the current
`seq` and advances the counter by one (u64 wrap-around kept explicit). -/
def gen_marker (s : SerializerState) (body : Body) : Marker × SerializerState :=
  (⟨s.seq, some body⟩, { s with seq := (s.seq + 1) % U64_MOD })

/-- `ImageSerializer::write_chunk`, restricted to the marker trace: the
source picks the shard with the most remaining space, writes the marker,
splices the payload and updates the shard bookkeeping; across all shards
the observable effect on the marker stream is appending the marker. -/
def write_chunk (s : SerializerState) (m : Marker) : SerializerState :=
  { s with emitted := s.emitted ++ [m] }

/-- One `gen_marker` followed by one `write_chunk`, the exact site
pattern of all four emission points in capture.rs. -/
def emitChunk (s : SerializerState) (body : Body) : SerializerState :=
  let (m, s1) := gen_marker s body
  write_chunk s1 m

/-- `ImageSerializer::chunk_max_data_size`:
`max(shard_pipe_capacity/SHARDS_PER_PIPE - PAGE_SIZE, PAGE_SIZE)`
(i32 arithmetic; both operands of the division are nonnegative for real
pipe capacities, where truncated and Euclidean division agree). -/
def chunk_max_data_size (shard_pipe_capacity pageSize : Int) : Int :=
  max (shard_pipe_capacity / SHARDS_PER_PIPE - pageSize) pageSize

/-- `ImageSerializer::maybe_write_filename_marker`: emit a `Filename`
marker only when the current filename differs. -/
def maybe_write_filename_marker (s : SerializerState) (filename : String) :
    SerializerState :=
  match s.current_filename with
  | some cur =>
    if cur = filename then s
    else emitChunk { s with current_filename := some filename } (.Filename filename)
  | none => emitChunk { s with current_filename := some filename } (.Filename filename)

/-- The `while readable_len > 0` loop of `drain_img_file`: each
iteration takes `data_size = min(readable_len, maxChunk)` and emits a
`FileData(data_size)` chunk. The fuel argument bounds the iteration
count; fuel `readable_len.toNat` suffices because every iteration
removes at least one byte when `maxChunk` is positive (which
`chunk_max_data_size` always is for a positive page size). -/
def drain_data_loop (maxChunk : Int) : Nat → Int → SerializerState → SerializerState
  | 0, _, s => s
  | fuel + 1, readable_len, s =>
    if 0 < readable_len then
      let data_size := min readable_len maxChunk
      drain_data_loop maxChunk fuel (readable_len - data_size)
        (emitChunk s (.FileData data_size.toNat))
    else s

/-- The chunk sizes produced by the `while readable_len > 0` loop, kept
as a list for stating claim C3. -/
def drain_data_sizes (maxChunk : Int) : Nat → Int → List Int
  | 0, _ => []
  | fuel + 1, readable_len =>
    if 0 < readable_len then
      min readable_len maxChunk
        :: drain_data_sizes maxChunk fuel (readable_len - min readable_len maxChunk)
    else []

/-- `ImageSerializer::drain_img_file` for a producer pipe holding
`readable_len` readable bytes (the `fionread()` result): EOF iff the
count is zero; emit the filename marker if needed; chunk the payload;
emit `FileEof(true)` on EOF. -/
def drain_img_file (pageSize : Int) (s : SerializerState) (filename : String)
    (readable_len : Int) : SerializerState :=
  let is_eof := readable_len = 0
  let s1 := maybe_write_filename_marker s filename
  let s2 := drain_data_loop (chunk_max_data_size s.shard_pipe_capacity pageSize)
    readable_len.toNat readable_len s1
  if is_eof then emitChunk s2 (.FileEof true) else s2

/-- `ImageSerializer::write_image_eof`. -/
def write_image_eof (s : SerializerState) : SerializerState :=
  emitChunk s (.ImageEof true)

/-- `ImageSerializer::new`: seq starts at 0, no current filename. -/
def init_serializer (shard_pipe_capacity : Int) : SerializerState :=
  { shard_pipe_capacity, seq := 0, current_filename := none, emitted := [] }

/-- A completed capture run (the `capture` entry point): a sequence of
producer-pipe drain events, in poller wake-up order, followed by the
single final `write_image_eof`. Each event carries the filename of the
woken producer pipe and its `fionread()` byte count. -/
def capture_run (pageSize shard_pipe_capacity : Int)
    (events : List (String × Int)) : SerializerState :=
  write_image_eof
    (events.foldl (fun s e => drain_img_file pageSize s e.1 e.2)
      (init_serializer shard_pipe_capacity))

/-! ## Association-list model of the filename maps

Rust `HashMap<Box<str>, _>` values are modelled as association lists
with unique keys; the (arbitrary but fixed) hash iteration order is the
list order. -/

/-- `HashMap::contains_key`. -/
def containsKey {α : Type} (files : List (String × α)) (k : String) : Bool :=
  files.any (fun e => e.1 == k)

/-- `HashMap::remove_entry`: remove the entry with key `k`, returning it
together with the remaining map. -/
def removeEntry {α : Type} : List (String × α) → String →
    Option ((String × α) × List (String × α))
  | [], _ => none
  | e :: rest, k =>
    if e.1 = k then some (e, rest)
    else (removeEntry rest k).map (fun p => (p.1, e :: p.2))

/-- `HashMap::insert` (replaces any existing binding of the key). -/
def hashInsert {α : Type} (files : List (String × α)) (k : String) (v : α) :
    List (String × α) :=
  files.filter (fun e => !(e.1 == k)) ++ [(k, v)]

/-! ## In-memory image store (src/image_store/mem.rs) -/

/-- `mem::Store::remove`: `HashMap::remove`, returning just the file. -/
def storeRemove {α : Type} (files : List (String × α)) (filename : String) :
    Option (α × List (String × α)) :=
  (removeEntry files filename).map (fun p => (p.1.2, p.2))

/-- Rust `str::starts_with(pfx)`: byte-string prefix test, modelled on
the character lists of the two strings. -/
def starts_with (s pfx : String) : Bool :=
  pfx.data.isPrefixOf s.data

/-- `mem::Store::remove_by_prefix`: scan the keys for the first one
having the argument as a prefix, then remove and return that entry. -/
def removeByPfx {α : Type} (files : List (String × α)) (pfx : String) :
    Option ((String × α) × List (String × α)) :=
  match (files.map Prod.fst).find? (fun k => starts_with k pfx) with
  | none => none
  | some k => removeEntry files k

/-- Names returned by a sequence of repeated `remove_by_prefix` calls,
each call operating on the store left by the previous one. -/
def removeByPfxSeq {α : Type} (files : List (String × α)) :
    List String → List String
  | [] => []
  | p :: ps =>
    match removeByPfx files p with
    | none => removeByPfxSeq files ps
    | some ((n, _), rest) => n :: removeByPfxSeq rest ps

/-! ## Restore deserializer (src/extract.rs)

`ImageDeserializer` state. The in-memory file content is abstracted to
the list of `FileData` sizes written into it (the payload bytes travel
through the shard pipe and are not part of the marker stream). The
`applied` field is a ghost trace recording, in order, every marker
handed to `process_marker`; it instruments the code for the ordering
claims and is touched by no branch of the translated code. -/

/-- Abstraction of `mem::File`: the sizes of the data writes received. -/
abbrev MemFile : Type := List Nat

structure DeserState where
  pending : List Marker
  seq : Nat
  img_store : List (String × MemFile)
  img_files : List (String × MemFile)
  current_img_file : Option (String × MemFile)
  image_eof : Bool
  applied : List Marker
deriving Repr, DecidableEq

/-- Deserializer errors carry the state at the moment the error is
raised: a `&mut self` method returning `Err` leaves its receiver in
exactly that state. -/
abbrev DRes := Except (String × DeserState) DeserState

/-- `ImageDeserializer::mark_image_eof`: `ensure!` that the map of
partially-seen files and the pending-marker heap are both empty, then
set the `image_eof` flag. -/
def mark_image_eof (s : DeserState) : DRes :=
  if s.img_files.isEmpty && s.pending.isEmpty then
    .ok { s with image_eof := true }
  else .error ("Image EOF marker came unexpectedly", s)

/-- First half of `ImageDeserializer::select_img_file`: `take()` the
current image file and put it back into the `img_files` map. -/
def stash_current (s : DeserState) : DeserState :=
  match s.current_img_file with
  | some (fname, out) =>
    { s with img_files := hashInsert s.img_files fname out,
             current_img_file := none }
  | none => s

/-- `ImageDeserializer::select_img_file`: stash the current file back
into `img_files`, then take the entry for the new filename out of
`img_files` (`remove_entry`), or create a fresh file via the store (the
in-memory store `create` returns an empty small file and cannot fail);
install it as the current image file. -/
def select_img_file (s : DeserState) (filename : String) : DeserState :=
  match removeEntry (stash_current s).img_files filename with
  | some ((fname, f), rest) =>
    { stash_current s with img_files := rest, current_img_file := some (fname, f) }
  | none =>
    { stash_current s with current_img_file := some (filename, ([] : MemFile)) }

/-- `mem::Store::insert` as called from the `FileEof` branch: the
source `assert!`s the filename is not already present (modelled as an
error outcome), then inserts. -/
def store_insert (s : DeserState) (filename : String) (f : MemFile) : DRes :=
  if containsKey s.img_store filename then
    .error ("Image file is being overwritten", s)
  else .ok { s with img_store := s.img_store ++ [(filename, f)] }

/-- `ImageDeserializer::process_marker`. The `FileData` branch models
`write_all_from_pipe` by appending the write size to the current file;
the `FileEof` branch first `take()`s the current file (leaving `none`)
and then commits it with `insert`. Bodies other than `Filename`,
`FileData`, `FileEof(true)` and `ImageEof(true)` are malformed. -/
def process_marker (s : DeserState) (m : Marker) : DRes :=
  match m.body with
  | some (.Filename filename) => .ok (select_img_file s filename)
  | some (.FileData size) =>
    match s.current_img_file with
    | none => .error ("Unexpected FileData marker", s)
    | some (fname, f) =>
      .ok { s with current_img_file := some (fname, f ++ [size]) }
  | some (.FileEof true) =>
    match s.current_img_file with
    | none => .error ("Unexpected FileEof marker", { s with current_img_file := none })
    | some (fname, f) => store_insert { s with current_img_file := none } fname f
  | some (.ImageEof true) => mark_image_eof s
  | _ => .error ("Malformed image marker", s)

/-- Pop the marker with the smallest sequence number from the pending
collection (the max-heap of `PendingMarker` uses the reversed `seq`
order; sequence numbers are unique in real streams, ties keep the
earlier element). -/
def popMinSeq : List Marker → Option (Marker × List Marker)
  | [] => none
  | m :: rest =>
    match popMinSeq rest with
    | none => some (m, [])
    | some (m', rest') =>
      if m'.seq < m.seq then some (m', m :: rest') else some (m, rest)

/-- `ImageDeserializer::get_next_in_order_marker`: peek the minimal
pending marker and pop it only if its `seq` matches the expected
counter. -/
def get_next_in_order_marker (s : DeserState) : Option (Marker × List Marker) :=
  match popMinSeq s.pending with
  | none => none
  | some (m, rest) => if m.seq = s.seq then some (m, rest) else none

/-- The `while let` loop of `process_pending_markers`: apply the next
in-order marker, advance `seq` by one (u64 wrap kept explicit), repeat.
Fuel `s.pending.length` dominates the iteration count since every
iteration pops one pending marker and `process_marker` never adds one.
The popped marker is appended to the ghost `applied` trace. -/
def process_pending_markers_aux : Nat → DeserState → DRes
  | 0, s => .ok s
  | fuel + 1, s =>
    match get_next_in_order_marker s with
    | none => .ok s
    | some (m, rest) => do
      let s1 ← process_marker
        { s with pending := rest, applied := s.applied ++ [m] } m
      process_pending_markers_aux fuel { s1 with seq := (s1.seq + 1) % U64_MOD }

/-- `ImageDeserializer::process_pending_markers`. -/
def process_pending_markers (s : DeserState) : DRes :=
  process_pending_markers_aux s.pending.length s

/-- `ImageDeserializer::drain_shard`, marker-arrival case: `ensure!` no
data follows the image EOF, push the freshly read marker into the
pending collection, process all in-order markers. (The shard-EOF case
only records transfer statistics and drops the shard.) -/
def drain_shard (s : DeserState) (m : Marker) : DRes :=
  if s.image_eof then .error ("Unexpected data after image EOF", s)
  else process_pending_markers { s with pending := s.pending ++ [m] }

/-- `ImageDeserializer::new`: everything empty, `seq` starts at 0. -/
def init_deser : DeserState :=
  { pending := [], seq := 0, img_store := [], img_files := [],
    current_img_file := none, image_eof := false, applied := [] }

/-- A restore run: the main loop reads markers from the shards one at a
time, in whichever order the shards deliver them, and feeds each to
`drain_shard`. -/
def deser_run (ms : List Marker) : DRes :=
  ms.foldlM (fun s m => drain_shard s m) init_deser

/-! ## Shard readiness selection (src/extract.rs, get_next_readable_shard)

The shards-not-yet-known-readable and known-readable collections are
`Vec`s of shard identifiers; `Vec::pop` removes the last element. The
blocking `poll()` over all unknown shards is modelled by a readiness
predicate giving, for each shard, the kernel's answer at the moment
`poll` returns; the boolean in the result records whether `poll()` was
invoked at all. -/

structure ExtractShards where
  shards : List Nat
  readable_shards : List Nat
deriving Repr, DecidableEq

/-- `ImageDeserializer::get_next_readable_shard`. When the readable
collection is empty the source tests `self.shards.len() <= 0` before
deciding whether to skip `poll()`; otherwise it polls all unknown
shards, moves the ready ones (preserving order) into the readable
collection, and pops from it. -/
def get_next_readable_shard (ready : Nat → Bool) (s : ExtractShards) :
    Option Nat × ExtractShards × Bool :=
  if s.readable_shards.isEmpty then
    if s.shards.length ≤ 0 then
      (s.shards.getLast?, { s with shards := s.shards.dropLast }, false)
    else
      let rd := s.readable_shards ++ s.shards.filter (fun i => ready i)
      let uk := s.shards.filter (fun i => !(ready i))
      (rd.getLast?, { shards := uk, readable_shards := rd.dropLast }, true)
  else
    (s.readable_shards.getLast?,
      { s with readable_shards := s.readable_shards.dropLast }, false)

/-! ## Consumer serve phases (src/extract.rs, serve_img)

Each phase reads length-prefixed requests from a consumer socket;
`read_next_file_request` yields one filename per request and `none` at
end of requests, modelled by a request list. The pipe plumbing (reply,
fd receive, capacity tuning, drain) always succeeds in the model; the
only failure of interest is the `ensure!` on the served-set. The served
set `filenames_of_sent_files` (a `HashSet<String>`) is a list of the
full filenames successfully served so far, shared across the phases. -/

/-- Daemon phase of `serve_img`: a single `if let` on the next request
(not a loop). On a hit, the filename enters the served set and the file
is drained; on a miss, the `ensure!` errors when the name was already
served, otherwise an exists=false reply is sent. The remaining requests
are returned unconsumed. -/
def serve_ced {α : Type} (st : List (String × α)) (served : List String)
    (reqs : List String) :
    Except String (List (String × α) × List String × List String) :=
  match reqs with
  | [] => .ok (st, served, [])
  | filename :: rest =>
    match storeRemove st filename with
    | some (_, st') => .ok (st', served ++ [filename], rest)
    | none =>
      if served.contains filename then
        .error "Daemon is requesting the image file multiple times"
      else .ok (st, served, rest)

/-- GPU phase of `serve_img`: a `while let` loop over prefix requests.
A hit serves the first store entry whose name has the requested prefix
and records that full name in the served set; on a miss the `ensure!`
tests whether the requested prefix string itself is a member of the
served set. -/
def serve_gpu {α : Type} :
    List String → List (String × α) → List String →
    Except String (List (String × α) × List String)
  | [], st, served => .ok (st, served)
  | fpfx :: rest, st, served =>
    match removeByPfx st fpfx with
    | some ((filename, _), st') => serve_gpu rest st' (served ++ [filename])
    | none =>
      if served.contains fpfx then
        .error "gpu-controller is requesting the image file multiple times"
      else serve_gpu rest st served

/-- CRIU phase of `serve_img`: a `while let` loop over exact-name
requests, with the same hit/miss handling as the daemon phase. -/
def serve_criu {α : Type} :
    List String → List (String × α) → List String →
    Except String (List (String × α) × List String)
  | [], st, served => .ok (st, served)
  | filename :: rest, st, served =>
    match storeRemove st filename with
    | some (_, st') => serve_criu rest st' (served ++ [filename])
    | none =>
      if served.contains filename then
        .error "CRIU is requesting the image file multiple times"
      else serve_criu rest st served

/-! ## Chunked codec framing (src/util.rs) -/

/-- EOF_ERR_MSG constant from util.rs. -/
def EOF_ERR_MSG : String := "EOF unexpectedly reached"

/-- `read_bytes_next`: read exactly `len` bytes from the stream. Zero
bytes available means EOF (`none`); exactly `len` bytes is a success
returning the bytes and the remaining stream; anything in between is an
error. -/
def read_bytes_next (src : List Nat) (len : Nat) :
    Except String (Option (List Nat × List Nat)) :=
  let buf := src.take len
  if buf.length = 0 then .ok none
  else if buf.length = len then .ok (some (buf, src.drop len))
  else .error EOF_ERR_MSG

/-- Little-endian u32 from a 4-byte buffer (`BytesMut::get_u32_le`). -/
def get_u32_le (b : List Nat) : Nat :=
  match b with
  | [b0, b1, b2, b3] =>
    b0 % 256 + 256 * (b1 % 256) + 65536 * (b2 % 256) + 16777216 * (b3 % 256)
  | _ => 0

/-- `pb_read_next`, parameterised by the protobuf decoder of the record
type: read the 4-byte length prefix (clean `none` at EOF), `assert!`
the declared length is under 10 KiB (the assertion failure is modelled
as an error outcome), read the body (a missing or partial body is an
error), decode it. On success it also returns the consumed byte count
`4 + size` (the length buffer has been exhausted by `get_u32_le` when
it is added up in the source) and the rest of the stream. -/
def pb_read_next {α : Type} (decode : List Nat → Option α) (src : List Nat) :
    Except String (Option (α × Nat × List Nat)) :=
  match read_bytes_next src 4 with
  | .error e => .error e
  | .ok none => .ok none
  | .ok (some (size_buf, rest)) =>
    let size := get_u32_le size_buf
    if size < 10 * 1024 then
      match read_bytes_next rest size with
      | .error e => .error e
      | .ok none => .error EOF_ERR_MSG
      | .ok (some (buf, rest2)) =>
        match decode buf with
        | some v => .ok (some (v, 4 + size, rest2))
        | none => .error "Failed to decode protobuf"
    else .error "Would read a protobuf of size more than 10KB"

/-! ## Proof-support definitions -/

/-- Serializer invariant: the `seq` counter equals the number of markers
emitted so far (mod 2^64), the emitted sequence numbers are exactly
`0, 1, ...` (mod 2^64) in emission order, and no `ImageEof` marker has
been emitted. -/
def SerInv (s : SerializerState) : Prop :=
  s.seq = s.emitted.length % U64_MOD ∧
  s.emitted.map Marker.seq = (List.range s.emitted.length).map (· % U64_MOD) ∧
  s.emitted.countP isImageEofMarker = 0

/-- Deserializer invariant for the ordering claim: the expected counter
equals the number of applied markers (mod 2^64) and the applied markers
carry, in application order, the sequence numbers `0, 1, ...`
(mod 2^64). -/
def DInv (s : DeserState) : Prop :=
  s.seq = s.applied.length % U64_MOD ∧
  s.applied.map Marker.seq = (List.range s.applied.length).map (· % U64_MOD)

/-- A trivial protobuf decoder used to instantiate `pb_read_next` in
concrete witnesses. -/
def decodeLen (buf : List Nat) : Option Nat := some buf.length

/-- The chunk sizes `drain_img_file` produces for a pipe holding `r`
readable bytes in serializer state `s` with the given page size. -/
def drain_sizes_of (pageSize : Int) (s : SerializerState) (r : Int) : List Int :=
  drain_data_sizes (chunk_max_data_size s.shard_pipe_capacity pageSize) r.toNat r

/-- Concrete marker arrival order used in the C2 witness: the shards
deliver the four markers of a one-file image with the first two
swapped. -/
def msC2 : List Marker :=
  [⟨1, some (.FileData 7)⟩, ⟨0, some (.Filename "a")⟩,
   ⟨2, some (.FileEof true)⟩, ⟨3, some (.ImageEof true)⟩]

/-- The deserializer state after consuming `msC2`. -/
def dC2final : DeserState :=
  { pending := [], seq := 4, img_store := [("a", [7])], img_files := [],
    current_img_file := none, image_eof := true,
    applied := [⟨0, some (.Filename "a")⟩, ⟨1, some (.FileData 7)⟩,
                ⟨2, some (.FileEof true)⟩, ⟨3, some (.ImageEof true)⟩] }

end CriuStreamer

namespace CriuStreamer

/-! # Theorems -/

theorem emitChunk_emitted (s : SerializerState) (b : Body) :
    (emitChunk s b).emitted = s.emitted ++ [⟨s.seq, some b⟩] := rfl

theorem emitChunk_seq (s : SerializerState) (b : Body) :
    (emitChunk s b).seq = (s.seq + 1) % U64_MOD := rfl

theorem mod_succ_mod (n : Nat) :
    (n % U64_MOD + 1) % U64_MOD = (n + 1) % U64_MOD := by
  conv_rhs => rw [Nat.add_mod]
  simp [U64_MOD]

theorem serInv_emitChunk {s : SerializerState} (b : Body)
    (hb : isImageEofMarker ⟨s.seq, some b⟩ = false) (h : SerInv s) :
    SerInv (emitChunk s b) := by
  obtain ⟨h1, h2, h3⟩ := h
  refine ⟨?_, ?_, ?_⟩
  · rw [emitChunk_seq, emitChunk_emitted, h1]
    simp [mod_succ_mod]
  · rw [emitChunk_emitted]
    simp only [List.map_append, List.length_append, List.map_cons, List.map_nil,
      List.length_cons, List.length_nil]
    rw [h2, h1, List.range_succ, List.map_append]
    simp
  · rw [emitChunk_emitted, List.countP_append, h3]
    simp [hb]

theorem serInv_currentFilename (s : SerializerState) (f : Option String) :
    SerInv { s with current_filename := f } ↔ SerInv s := Iff.rfl

theorem serInv_maybe_write_filename_marker {s : SerializerState} (f : String)
    (h : SerInv s) : SerInv (maybe_write_filename_marker s f) := by
  unfold maybe_write_filename_marker
  cases hc : s.current_filename with
  | none => exact serInv_emitChunk _ rfl h
  | some cur =>
    by_cases hf : cur = f
    · simpa [hf]
    · simp only [if_neg hf]
      exact serInv_emitChunk _ rfl h

theorem serInv_drain_data_loop (m : Int) :
    ∀ (fuel : Nat) (r : Int) (s : SerializerState),
      SerInv s → SerInv (drain_data_loop m fuel r s)
  | 0, _, _, h => h
  | fuel + 1, r, s, h => by
    unfold drain_data_loop
    by_cases hr : 0 < r
    · simp only [if_pos hr]
      exact serInv_drain_data_loop m fuel _ _ (serInv_emitChunk _ rfl h)
    · simpa [if_neg hr]

theorem serInv_drain_img_file {s : SerializerState} (ps : Int) (f : String)
    (r : Int) (h : SerInv s) : SerInv (drain_img_file ps s f r) := by
  unfold drain_img_file
  by_cases he : r = 0
  · simp only [if_pos he]
    exact serInv_emitChunk _ rfl
      (serInv_drain_data_loop _ _ _ _ (serInv_maybe_write_filename_marker f h))
  · simp only [if_neg he]
    exact serInv_drain_data_loop _ _ _ _ (serInv_maybe_write_filename_marker f h)

theorem serInv_init (c : Int) : SerInv (init_serializer c) := by
  refine ⟨rfl, rfl, rfl⟩

theorem serInv_foldl (ps : Int) :
    ∀ (events : List (String × Int)) (s : SerializerState), SerInv s →
      SerInv (events.foldl (fun s e => drain_img_file ps s e.1 e.2) s)
  | [], _, h => h
  | e :: rest, _, h =>
    serInv_foldl ps rest _ (serInv_drain_img_file ps e.1 e.2 h)

theorem range_map_mod {n : Nat} (h : n ≤ U64_MOD) :
    (List.range n).map (· % U64_MOD) = List.range n := by
  have : ∀ a ∈ List.range n, a % U64_MOD = a := by
    intro a ha
    exact Nat.mod_eq_of_lt (lt_of_lt_of_le (List.mem_range.mp ha) h)
  calc (List.range n).map (· % U64_MOD)
      = (List.range n).map id := List.map_congr_left this
    _ = List.range n := List.map_id _

/-- Claim C1: in every completed capture run the markers emitted across
all shards carry the dense sequence numbers `0, 1, ..., N-1` in
emission order (each marker consuming exactly one number assigned by
`gen_marker`), and exactly one `ImageEof` marker is emitted, carrying
the highest number `N-1`. The hypothesis restricts the run to fewer
markers than the wrap-around point of the u64 counter. -/
theorem capture_markers_dense (pageSize cap : Int) (events : List (String × Int))
    (hN : (capture_run pageSize cap events).emitted.length ≤ U64_MOD) :
    (capture_run pageSize cap events).emitted.map Marker.seq
        = List.range (capture_run pageSize cap events).emitted.length
    ∧ (capture_run pageSize cap events).emitted.countP isImageEofMarker = 1
    ∧ (capture_run pageSize cap events).emitted.getLast?
        = some ⟨(capture_run pageSize cap events).emitted.length - 1,
                some (.ImageEof true)⟩ := by
  have hprev : SerInv (events.foldl (fun s e => drain_img_file pageSize s e.1 e.2)
      (init_serializer cap)) := serInv_foldl pageSize events _ (serInv_init cap)
  set prev := events.foldl (fun s e => drain_img_file pageSize s e.1 e.2)
    (init_serializer cap) with hprevdef
  obtain ⟨h1, h2, h3⟩ := hprev
  have hrun : capture_run pageSize cap events = write_image_eof prev := rfl
  have hemit : (capture_run pageSize cap events).emitted
      = prev.emitted ++ [⟨prev.seq, some (.ImageEof true)⟩] := by
    rw [hrun]; rfl
  have hlen : (capture_run pageSize cap events).emitted.length
      = prev.emitted.length + 1 := by
    rw [hemit]; simp
  rw [hlen] at hN
  have hlt : prev.emitted.length < U64_MOD := lt_of_lt_of_le (Nat.lt_succ_self _) hN
  have hseq : prev.seq = prev.emitted.length := by
    rw [h1]; exact Nat.mod_eq_of_lt hlt
  have hlen' : (prev.emitted
      ++ [(⟨prev.seq, some (.ImageEof true)⟩ : Marker)]).length
      = prev.emitted.length + 1 := by simp
  refine ⟨?_, ?_, ?_⟩
  · rw [hemit, List.map_append, h2, hlen', List.range_succ,
      range_map_mod (le_of_lt hlt)]
    simp [hseq]
  · rw [hemit, List.countP_append, h3]
    rfl
  · rw [hemit, List.getLast?_concat, hlen']
    simp [hseq]

theorem chunk_max_data_size_pos {cap pageSize : Int} (h : 0 < pageSize) :
    0 < chunk_max_data_size cap pageSize :=
  lt_of_lt_of_le h (le_max_right _ _)

theorem drain_data_loop_emitted (m : Int) :
    ∀ (fuel : Nat) (r : Int) (s : SerializerState),
      ∃ ms, (drain_data_loop m fuel r s).emitted = s.emitted ++ ms
        ∧ ms.map Marker.body
          = (drain_data_sizes m fuel r).map (fun z => some (Body.FileData z.toNat))
  | 0, r, s => ⟨[], by simp [drain_data_loop, drain_data_sizes]⟩
  | fuel + 1, r, s => by
    by_cases hr : 0 < r
    · obtain ⟨ms, hm, hb⟩ :=
        drain_data_loop_emitted m fuel (r - min r m)
          (emitChunk s (.FileData (min r m).toNat))
      refine ⟨⟨s.seq, some (.FileData (min r m).toNat)⟩ :: ms, ?_, ?_⟩
      · rw [drain_data_loop, if_pos hr, hm, emitChunk_emitted]
        simp
      · rw [drain_data_sizes, if_pos hr]
        simp [hb]
    · exact ⟨[], by simp [drain_data_loop, drain_data_sizes, if_neg hr]⟩

theorem drain_data_sizes_sum {m : Int} (hm : 0 < m) :
    ∀ (fuel : Nat) (r : Int), 0 ≤ r → r ≤ fuel →
      (drain_data_sizes m fuel r).sum = r
  | 0, r, h0, h1 => by
    have : r = 0 := le_antisymm (by exact_mod_cast h1) h0
    simp [drain_data_sizes, this]
  | fuel + 1, r, h0, h1 => by
    by_cases hr : 0 < r
    · simp only [drain_data_sizes]
      rw [if_pos hr, List.sum_cons]
      have hmin1 : 1 ≤ min r m := le_min hr hm
      have hminr : min r m ≤ r := min_le_left _ _
      have ih := drain_data_sizes_sum hm fuel (r - min r m)
        (by omega) (by push_cast at h1 ⊢; omega)
      rw [ih]; ring
    · have : r = 0 := by omega
      simp only [drain_data_sizes]
      rw [if_neg hr]
      simp [this]

theorem drain_data_sizes_each {m : Int} (hm : 0 < m) :
    ∀ (fuel : Nat) (r : Int) (k : Nat),
      k < (drain_data_sizes m fuel r).length →
      (drain_data_sizes m fuel r).get? k
        = some (min (r - ((drain_data_sizes m fuel r).take k).sum) m)
  | 0, r, k, hk => by simp [drain_data_sizes] at hk
  | fuel + 1, r, k, hk => by
    by_cases hr : 0 < r
    · simp only [drain_data_sizes] at hk ⊢
      rw [if_pos hr] at hk ⊢
      cases k with
      | zero => simp
      | succ k' =>
        have hk' : k' < (drain_data_sizes m fuel (r - min r m)).length := by
          simpa using hk
        have ih := drain_data_sizes_each hm fuel (r - min r m) k' hk'
        rw [List.get?_cons_succ, ih, List.take_succ_cons, List.sum_cons]
        ring_nf
    · simp only [drain_data_sizes] at hk
      rw [if_neg hr] at hk
      simp at hk

/-- Claim C3: draining a producer pipe holding `r > 0` readable bytes
emits `FileData` chunks (after the possible filename marker) whose
sizes are each `min(remaining, max_chunk_size)` with
`max_chunk_size = max(shard_pipe_capacity/8 - page_size, page_size)`,
summing to exactly `r`; with `r = 0` the pipe is at EOF and a
`FileEof` marker is emitted instead. -/
theorem drain_emits_min_chunks (pageSize : Int) (s : SerializerState)
    (name : String) (r : Int) (hps : 0 < pageSize) (hr : 0 ≤ r) :
    chunk_max_data_size s.shard_pipe_capacity pageSize
        = max (s.shard_pipe_capacity / 8 - pageSize) pageSize
    ∧ (0 < r →
        (∃ ms, (drain_img_file pageSize s name r).emitted
            = (maybe_write_filename_marker s name).emitted ++ ms
          ∧ ms.map Marker.body
            = (drain_sizes_of pageSize s r).map
                (fun z => some (Body.FileData z.toNat)))
        ∧ (drain_sizes_of pageSize s r).sum = r
        ∧ ∀ (k : Nat), k < (drain_sizes_of pageSize s r).length →
            (drain_sizes_of pageSize s r).get? k
              = some (min (r - ((drain_sizes_of pageSize s r).take k).sum)
                  (chunk_max_data_size s.shard_pipe_capacity pageSize)))
    ∧ (r = 0 → (drain_img_file pageSize s name r).emitted
        = (maybe_write_filename_marker s name).emitted
          ++ [⟨(maybe_write_filename_marker s name).seq, some (.FileEof true)⟩]) := by
  have hm : 0 < chunk_max_data_size s.shard_pipe_capacity pageSize :=
    chunk_max_data_size_pos hps
  refine ⟨rfl, ?_, ?_⟩
  · intro hrpos
    have hne : ¬ (r = 0) := by omega
    refine ⟨?_, ?_, ?_⟩
    · obtain ⟨ms, hmm, hbb⟩ := drain_data_loop_emitted
        (chunk_max_data_size s.shard_pipe_capacity pageSize) r.toNat r
        (maybe_write_filename_marker s name)
      exact ⟨ms, by rw [drain_img_file]; simp only [if_neg hne]; exact hmm, hbb⟩
    · exact drain_data_sizes_sum hm r.toNat r hr (by omega)
    · exact fun k hk => drain_data_sizes_each hm r.toNat r k hk
  · intro h0
    rw [drain_img_file]
    simp only [h0, Int.toNat_zero]
    simp [drain_data_loop, emitChunk_emitted]

/-- Witness for C3 at a concrete drain: page size 1, shard pipe
capacity 8 (so max_chunk_size is 1), 2 readable bytes. -/
theorem drain_emits_min_chunks_w :
    (0 < (1 : Int) ∧ 0 ≤ (2 : Int))
    ∧ (chunk_max_data_size (init_serializer 8).shard_pipe_capacity 1
        = max ((init_serializer 8).shard_pipe_capacity / 8 - 1) 1
      ∧ (0 < (2 : Int) →
          (∃ ms, (drain_img_file 1 (init_serializer 8) "a" 2).emitted
              = (maybe_write_filename_marker (init_serializer 8) "a").emitted ++ ms
            ∧ ms.map Marker.body
              = (drain_sizes_of 1 (init_serializer 8) 2).map
                  (fun z => some (Body.FileData z.toNat)))
          ∧ (drain_sizes_of 1 (init_serializer 8) 2).sum = 2
          ∧ ∀ (k : Nat), k < (drain_sizes_of 1 (init_serializer 8) 2).length →
              (drain_sizes_of 1 (init_serializer 8) 2).get? k
                = some (min (2 - ((drain_sizes_of 1 (init_serializer 8) 2).take k).sum)
                    (chunk_max_data_size (init_serializer 8).shard_pipe_capacity 1)))
      ∧ ((2 : Int) = 0 → (drain_img_file 1 (init_serializer 8) "a" 2).emitted
          = (maybe_write_filename_marker (init_serializer 8) "a").emitted
            ++ [⟨(maybe_write_filename_marker (init_serializer 8) "a").seq,
                 some (.FileEof true)⟩])) :=
  ⟨⟨by decide, by decide⟩,
    drain_emits_min_chunks 1 (init_serializer 8) "a" 2 (by decide) (by decide)⟩

theorem stash_current_ghost (s : DeserState) :
    (stash_current s).applied = s.applied ∧ (stash_current s).seq = s.seq
      ∧ (stash_current s).pending = s.pending := by
  rcases hc : s.current_img_file with _ | ⟨fname, out⟩ <;> simp [stash_current, hc]

theorem select_img_file_ghost (s : DeserState) (f : String) :
    (select_img_file s f).applied = s.applied ∧ (select_img_file s f).seq = s.seq
      ∧ (select_img_file s f).pending = s.pending := by
  have hs := stash_current_ghost s
  rcases hr : removeEntry (stash_current s).img_files f with _ | ⟨⟨n2, f2⟩, rest⟩ <;>
    simp [select_img_file, hr, hs.1, hs.2.1, hs.2.2]

theorem store_insert_ghost {s s' : DeserState} {f : String} {file : MemFile}
    (h : store_insert s f file = .ok s') :
    s'.applied = s.applied ∧ s'.seq = s.seq ∧ s'.pending = s.pending := by
  unfold store_insert at h
  split at h
  · simp at h
  · simp only [Except.ok.injEq] at h
    subst h
    simp

theorem mark_image_eof_ghost {s s' : DeserState}
    (h : mark_image_eof s = .ok s') :
    s'.applied = s.applied ∧ s'.seq = s.seq ∧ s'.pending = s.pending := by
  unfold mark_image_eof at h
  split at h
  · simp only [Except.ok.injEq] at h
    subst h
    simp
  · simp at h

theorem process_marker_ghost {s s' : DeserState} {m : Marker}
    (h : process_marker s m = .ok s') :
    s'.applied = s.applied ∧ s'.seq = s.seq ∧ s'.pending = s.pending := by
  rcases hb : m.body with _ | (f | sz | bb | bb)
  · simp [process_marker, hb] at h
  · simp only [process_marker, hb, Except.ok.injEq] at h
    subst h
    exact select_img_file_ghost s f
  · rcases hc : s.current_img_file with _ | ⟨fname, file⟩
    · simp [process_marker, hb, hc] at h
    · simp only [process_marker, hb, hc, Except.ok.injEq] at h
      subst h
      simp
  · cases bb
    · simp [process_marker, hb] at h
    · rcases hc : s.current_img_file with _ | ⟨fname, file⟩
      · simp [process_marker, hb, hc] at h
      · simp only [process_marker, hb, hc] at h
        simpa using store_insert_ghost h
  · cases bb
    · simp [process_marker, hb] at h
    · simp only [process_marker, hb] at h
      exact mark_image_eof_ghost h

theorem get_next_in_order_seq {s : DeserState} {m : Marker} {rest : List Marker}
    (h : get_next_in_order_marker s = some (m, rest)) : m.seq = s.seq := by
  unfold get_next_in_order_marker at h
  rcases hp : popMinSeq s.pending with _ | ⟨m', rest'⟩
  · rw [hp] at h; simp at h
  · rw [hp] at h
    dsimp only at h
    by_cases he : m'.seq = s.seq
    · rw [if_pos he] at h
      obtain ⟨rfl, rfl⟩ : m' = m ∧ rest' = rest := by
        simpa using h
      exact he
    · rw [if_neg he] at h; simp at h

theorem dInv_process_pending_aux :
    ∀ (fuel : Nat) (s s' : DeserState), DInv s →
      process_pending_markers_aux fuel s = .ok s' → DInv s'
  | 0, s, s', hInv, h => by
    simp only [process_pending_markers_aux, Except.ok.injEq] at h
    exact h ▸ hInv
  | fuel + 1, s, s', hInv, h => by
    rw [process_pending_markers_aux] at h
    rcases hg : get_next_in_order_marker s with _ | ⟨m, rest⟩
    · rw [hg] at h
      simp only [Except.ok.injEq] at h
      exact h ▸ hInv
    · rw [hg] at h
      simp only [bind, Except.bind] at h
      rcases hp : process_marker
          { s with pending := rest, applied := s.applied ++ [m] } m with e | s1
      · rw [hp] at h; simp at h
      · rw [hp] at h
        obtain ⟨ha, hq, _⟩ := process_marker_ghost hp
        have hmseq : m.seq = s.seq := get_next_in_order_seq hg
        obtain ⟨h1, h2⟩ := hInv
        refine dInv_process_pending_aux fuel _ s' ⟨?_, ?_⟩ h
        · simp only [ha, hq, List.length_append, List.length_cons,
            List.length_nil]
          rw [h1, mod_succ_mod]
        · simp only [ha, List.map_append, h2, List.length_append,
            List.length_cons, List.length_nil, List.range_succ, List.map_cons,
            List.map_nil]
          simp [hmseq, h1]

theorem dInv_process_pending {s s' : DeserState} (hInv : DInv s)
    (h : process_pending_markers s = .ok s') : DInv s' :=
  dInv_process_pending_aux _ s s' hInv h

theorem dInv_drain_shard {s s' : DeserState} {m : Marker} (hInv : DInv s)
    (h : drain_shard s m = .ok s') : DInv s' := by
  unfold drain_shard at h
  split at h
  · simp at h
  · exact @dInv_process_pending { s with pending := s.pending ++ [m] } s'
      ⟨hInv.1, hInv.2⟩ h

theorem dInv_foldlM :
    ∀ (ms : List Marker) (s s' : DeserState), DInv s →
      (ms.foldlM (fun s m => drain_shard s m) s : DRes) = .ok s' → DInv s'
  | [], s, s', hInv, h => by
    simp only [List.foldlM_nil, pure, Except.pure, Except.ok.injEq] at h
    exact h ▸ hInv
  | m :: rest, s, s', hInv, h => by
    simp only [List.foldlM_cons, bind, Except.bind] at h
    rcases hd : drain_shard s m with e | s1
    · rw [hd] at h; simp at h
    · rw [hd] at h
      exact dInv_foldlM rest s1 s' (dInv_drain_shard hInv hd) h

theorem dInv_init : DInv init_deser := ⟨rfl, rfl⟩

/-- Claim C2: at restore, markers are applied to the image store
strictly in increasing, contiguous sequence-number order: the ghost
trace of markers handed to `process_marker` carries the sequence
numbers `0, 1, ...` in application order (every store operation happens
inside `process_marker` for exactly one applied marker), and the
expected counter advances by one per applied marker. The hypothesis
restricts the run to fewer applied markers than the u64 wrap-around
point. -/
theorem deser_applies_in_order (ms : List Marker) (s' : DeserState)
    (h : deser_run ms = .ok s') (hN : s'.applied.length ≤ U64_MOD) :
    s'.applied.map Marker.seq = List.range s'.applied.length
    ∧ s'.seq = s'.applied.length % U64_MOD := by
  have hd : DInv s' := dInv_foldlM ms init_deser s' dInv_init h
  exact ⟨by rw [hd.2, range_map_mod hN], hd.1⟩

/-- Witness for C2: a four-marker image delivered with the first two
markers swapped across shards. -/
theorem deser_applies_in_order_w :
    (deser_run msC2 = .ok dC2final ∧ dC2final.applied.length ≤ U64_MOD)
    ∧ (dC2final.applied.map Marker.seq = List.range dC2final.applied.length
       ∧ dC2final.seq = dC2final.applied.length % U64_MOD) :=
  ⟨⟨by rfl, by decide⟩,
    deser_applies_in_order msC2 dC2final (by rfl) (by decide)⟩

/-- Counterexample to claim C6 as stated: a deserializer state with a
current image file installed (a `Filename` marker applied, no `FileEof`
yet) but an empty `img_files` map and no pending markers. Applying the
`ImageEof` marker succeeds and sets the flag, although the claim says
it must fail while a current file exists. -/
theorem image_eof_ignores_current_file_cex :
    process_marker ⟨[], 3, [], [], some ("a", []), false, []⟩
        ⟨3, some (.ImageEof true)⟩
      = .ok ⟨[], 3, [], [], some ("a", []), true, []⟩
    ∧ (⟨[], 3, [], [], some ("a", []), false, []⟩ : DeserState).current_img_file
        ≠ none :=
  ⟨by rfl, by decide⟩

/-- Claim C6 amended: applying an `ImageEof` marker succeeds exactly
when the map of partially-seen files (`img_files`) is empty and no
markers other than the `ImageEof` itself are pending (the `ImageEof`
has already been popped when it is applied); the current image file is
not checked. On success the `image_eof` flag is set and nothing else
changes. -/
theorem image_eof_checks_img_files (s : DeserState) (m : Marker)
    (hb : m.body = some (.ImageEof true)) :
    ((∃ s', process_marker s m = .ok s') ↔ (s.img_files = [] ∧ s.pending = []))
    ∧ ∀ s', process_marker s m = .ok s' → s' = { s with image_eof := true } := by
  have hpm : process_marker s m = mark_image_eof s := by
    simp [process_marker, hb]
  rw [hpm]
  unfold mark_image_eof
  by_cases h1 : s.img_files.isEmpty && s.pending.isEmpty
  · rw [if_pos h1]
    simp only [Bool.and_eq_true, List.isEmpty_iff] at h1
    constructor
    · exact ⟨fun _ => h1, fun _ => ⟨_, rfl⟩⟩
    · intro s' hs'
      simpa using hs'.symm
  · rw [if_neg h1]
    constructor
    · constructor
      · rintro ⟨s', hs'⟩
        simp at hs'
      · intro hcond
        exact absurd (by simp [hcond.1, hcond.2]) h1
    · intro s' hs'
      simp at hs'

/-- Witness for the amended C6: the empty deserializer state accepts an
`ImageEof` marker and only sets the flag. -/
theorem image_eof_checks_img_files_w :
    ((⟨5, some (.ImageEof true)⟩ : Marker).body = some (.ImageEof true))
    ∧ (((∃ s', process_marker init_deser ⟨5, some (.ImageEof true)⟩ = .ok s')
          ↔ (init_deser.img_files = [] ∧ init_deser.pending = []))
       ∧ ∀ s', process_marker init_deser ⟨5, some (.ImageEof true)⟩ = .ok s'
          → s' = { init_deser with image_eof := true }) :=
  ⟨rfl, image_eof_checks_img_files init_deser ⟨5, some (.ImageEof true)⟩ rfl⟩

/-- Claim C10: with no current image file installed, applying a
`FileData` or `FileEof` marker returns an error and leaves the
deserializer state — in particular the image store — exactly as it
was. -/
theorem no_current_file_rejects_data (s : DeserState) (m : Marker)
    (hcur : s.current_img_file = none)
    (hb : (∃ size, m.body = some (.FileData size))
          ∨ m.body = some (.FileEof true)) :
    ∃ msg, process_marker s m = .error (msg, s) := by
  have hse : { s with current_img_file := none } = s := by
    cases s
    simp_all
  rcases hb with ⟨sz, hb⟩ | hb
  · exact ⟨"Unexpected FileData marker", by simp [process_marker, hb, hcur]⟩
  · exact ⟨"Unexpected FileEof marker", by simp [process_marker, hb, hcur, hse]⟩

/-- Witness for C10: the initial deserializer state rejects a
`FileData` marker unchanged. -/
theorem no_current_file_rejects_data_w :
    init_deser.current_img_file = none
    ∧ ((∃ size, (⟨0, some (.FileData 5)⟩ : Marker).body = some (.FileData size))
        ∨ (⟨0, some (.FileData 5)⟩ : Marker).body = some (.FileEof true))
    ∧ ∃ msg, process_marker init_deser ⟨0, some (.FileData 5)⟩
        = .error (msg, init_deser) :=
  ⟨rfl, Or.inl ⟨5, rfl⟩,
    no_current_file_rejects_data init_deser ⟨0, some (.FileData 5)⟩ rfl
      (Or.inl ⟨5, rfl⟩)⟩

theorem containsKey_iff {α : Type} (l : List (String × α)) (k : String) :
    containsKey l k = true ↔ k ∈ l.map Prod.fst := by
  unfold containsKey
  rw [List.any_eq_true]
  constructor
  · rintro ⟨e, he, hk⟩
    exact List.mem_map.mpr ⟨e, he, by simpa using hk⟩
  · intro hk
    obtain ⟨e, he, hk⟩ := List.mem_map.mp hk
    exact ⟨e, he, by simpa using hk⟩

theorem removeEntry_eq_none {α : Type} :
    ∀ (l : List (String × α)) (k : String),
      removeEntry l k = none ↔ k ∉ l.map Prod.fst
  | [], k => by simp [removeEntry]
  | x :: xs, k => by
    rw [removeEntry]
    by_cases hx : x.1 = k
    · rw [if_pos hx]
      simp [hx]
    · rw [if_neg hx]
      rcases hr : removeEntry xs k with _ | p
      · have := (removeEntry_eq_none xs k).mp hr
        simp [Ne.symm hx, this]
      · have : k ∈ xs.map Prod.fst := by
          by_contra hk
          rw [← removeEntry_eq_none xs k] at hk
          rw [hk] at hr
          exact absurd hr (by simp)
        simp [this]

theorem removeEntry_some {α : Type} :
    ∀ (l : List (String × α)) (k : String) (e : String × α)
      (rest : List (String × α)), removeEntry l k = some (e, rest) →
      e.1 = k ∧ rest.map Prod.fst = (l.map Prod.fst).erase k
  | [], k, e, rest, h => by simp [removeEntry] at h
  | x :: xs, k, e, rest, h => by
    rw [removeEntry] at h
    by_cases hx : x.1 = k
    · rw [if_pos hx] at h
      obtain ⟨rfl, rfl⟩ : x = e ∧ xs = rest := by simpa using h
      refine ⟨hx, ?_⟩
      simp [List.erase_cons, hx]
    · rw [if_neg hx] at h
      rcases hr : removeEntry xs k with _ | ⟨e2, rest2⟩
      · rw [hr] at h; simp at h
      · rw [hr] at h
        simp only [Option.map_some'] at h
        obtain ⟨rfl, rfl⟩ : e2 = e ∧ x :: rest2 = rest := by
          constructor <;> · injection h with h'; cases h'; rfl
        obtain ⟨ih1, ih2⟩ := removeEntry_some xs k e2 rest2 hr
        refine ⟨ih1, ?_⟩
        simp [List.erase_cons, hx, ih2]

theorem removeByPfx_eq_none_iff {α : Type} (files : List (String × α))
    (pfx : String) :
    removeByPfx files pfx = none
      ↔ ∀ k ∈ files.map Prod.fst, ¬ starts_with k pfx := by
  unfold removeByPfx
  rcases hf : (files.map Prod.fst).find? (fun k => starts_with k pfx) with _ | k
  · constructor
    · intro _ k hk
      simpa using List.find?_eq_none.mp hf k hk
    · intro _; rfl
  · have hkmem : k ∈ files.map Prod.fst := List.mem_of_find?_eq_some hf
    have hkp : starts_with k pfx := by simpa using List.find?_some hf
    constructor
    · intro hnone
      exact absurd hkmem ((removeEntry_eq_none files k).mp hnone)
    · intro hall
      exact absurd hkp (hall k hkmem)

theorem removeByPfx_some {α : Type} {files : List (String × α)} {pfx n : String}
    {f : α} {rest : List (String × α)}
    (h : removeByPfx files pfx = some ((n, f), rest)) :
    starts_with n pfx = true ∧ n ∈ files.map Prod.fst
    ∧ rest.map Prod.fst = (files.map Prod.fst).erase n := by
  unfold removeByPfx at h
  rcases hf : (files.map Prod.fst).find? (fun k => starts_with k pfx) with _ | k
  · rw [hf] at h; simp at h
  · rw [hf] at h
    obtain ⟨hnk, hrest⟩ := removeEntry_some files k (n, f) rest h
    have hnk' : n = k := hnk
    subst hnk'
    have hkmem : n ∈ files.map Prod.fst := List.mem_of_find?_eq_some hf
    have hkp : starts_with n pfx := by simpa using List.find?_some hf
    exact ⟨hkp, hkmem, hrest⟩

theorem removeByPfxSeq_mem {α : Type} :
    ∀ (pfxs : List String) (files : List (String × α)) (x : String),
      x ∈ removeByPfxSeq files pfxs → x ∈ files.map Prod.fst
  | [], files, x, h => by simp [removeByPfxSeq] at h
  | p :: ps, files, x, h => by
    rw [removeByPfxSeq] at h
    rcases hr : removeByPfx files p with _ | ⟨⟨n, f⟩, rest⟩
    · rw [hr] at h
      exact removeByPfxSeq_mem ps files x h
    · rw [hr] at h
      obtain ⟨hp, hmem, hrest⟩ := removeByPfx_some hr
      rcases List.mem_cons.mp h with rfl | h
      · exact hmem
      · have := removeByPfxSeq_mem ps rest x h
        rw [hrest] at this
        exact List.erase_subset _ _ this

theorem removeByPfxSeq_nodup {α : Type} :
    ∀ (pfxs : List String) (files : List (String × α)),
      (files.map Prod.fst).Nodup → (removeByPfxSeq files pfxs).Nodup
  | [], files, hnd => by simp [removeByPfxSeq]
  | p :: ps, files, hnd => by
    rw [removeByPfxSeq]
    rcases hr : removeByPfx files p with _ | ⟨⟨n, f⟩, rest⟩
    · exact removeByPfxSeq_nodup ps files hnd
    · obtain ⟨hp, hmem, hrest⟩ := removeByPfx_some hr
      have hndrest : (rest.map Prod.fst).Nodup := by
        rw [hrest]; exact hnd.erase n
      refine List.nodup_cons.mpr ⟨?_, removeByPfxSeq_nodup ps rest hndrest⟩
      intro hmemseq
      have : n ∈ rest.map Prod.fst := removeByPfxSeq_mem ps rest n hmemseq
      rw [hrest] at this
      exact absurd (((hnd.mem_erase_iff).mp this).1 rfl) not_false

/-- Claim C9: `remove_by_prefix` returns none exactly when no remaining
name has the requested string as prefix; when it returns an entry, the
returned name starts with the requested string and is removed from the
store, so no sequence of repeated `remove_by_prefix` calls ever returns
the same name twice. -/
theorem removeByPfx_spec {α : Type} (files : List (String × α)) (pfx : String)
    (hnd : (files.map Prod.fst).Nodup) :
    (removeByPfx files pfx = none
      ↔ ∀ k ∈ files.map Prod.fst, ¬ starts_with k pfx)
    ∧ (∀ (n : String) (f : α) (rest : List (String × α)),
        removeByPfx files pfx = some ((n, f), rest) →
          starts_with n pfx = true ∧ n ∈ files.map Prod.fst
          ∧ n ∉ rest.map Prod.fst)
    ∧ ∀ (pfxs : List String), (removeByPfxSeq files pfxs).Nodup := by
  refine ⟨removeByPfx_eq_none_iff files pfx, ?_, ?_⟩
  · intro n f rest h
    obtain ⟨hp, hmem, hrest⟩ := removeByPfx_some h
    refine ⟨hp, hmem, ?_⟩
    intro hcontra
    rw [hrest] at hcontra
    exact absurd (((hnd.mem_erase_iff).mp hcontra).1 rfl) not_false
  · intro pfxs
    exact removeByPfxSeq_nodup pfxs files hnd

/-- Witness for C9 at a concrete store of two files. -/
theorem removeByPfx_spec_w :
    ((([("ab", 0), ("cd", 1)] : List (String × Nat)).map Prod.fst).Nodup)
    ∧ ((removeByPfx ([("ab", 0), ("cd", 1)] : List (String × Nat)) "a" = none
        ↔ ∀ k ∈ (([("ab", 0), ("cd", 1)] : List (String × Nat)).map Prod.fst),
            ¬ starts_with k "a")
      ∧ (∀ (n : String) (f : Nat) (rest : List (String × Nat)),
          removeByPfx ([("ab", 0), ("cd", 1)] : List (String × Nat)) "a"
              = some ((n, f), rest) →
            starts_with n "a" = true
            ∧ n ∈ (([("ab", 0), ("cd", 1)] : List (String × Nat)).map Prod.fst)
            ∧ n ∉ rest.map Prod.fst)
      ∧ ∀ (pfxs : List String),
          (removeByPfxSeq ([("ab", 0), ("cd", 1)] : List (String × Nat)) pfxs).Nodup) :=
  ⟨by decide, removeByPfx_spec ([("ab", 0), ("cd", 1)] : List (String × Nat)) "a"
    (by decide)⟩

/-- Claim C4 evaluated at its failing input: with the readable
collection empty and exactly one shard (id 7) in the unknown
collection, `get_next_readable_shard` invokes `poll()` (third
component `true`) before returning the shard, because the source tests
`self.shards.len() <= 0` where its own comment and log message describe
the `<= 1` fast path. The claim — and the code comment — say the single
remaining shard is returned immediately with no readiness polling. -/
theorem single_remaining_shard_still_polls :
    get_next_readable_shard (fun _ => true) ⟨[7], []⟩
      = (some 7, ⟨[], []⟩, true) := by rfl

/-- Counterexample to claim C5 as stated: with files "a" and "b" both
in the memory store and the daemon sending the two requests
["a", "b"], the daemon phase ends after serving only "a": the request
"b" is left unconsumed and "b" is still in the store, so not all k = 2
requested files are served before the phase ends. -/
theorem ced_single_request_cex :
    serve_ced ([("a", 0), ("b", 1)] : List (String × Nat)) [] ["a", "b"]
        = .ok ([("b", 1)], ["a"], ["b"])
    ∧ containsKey ([("b", 1)] : List (String × Nat)) "b" = true :=
  ⟨by rfl, by rfl⟩

/-- Claim C5 amended: the daemon consumer phase processes at most the
first request — served or answered exists=false — and returns with
every later request unconsumed; any requested file other than the
first stays in the store. (The CRIU and GPU phases do loop; the daemon
phase is a single `if let`.) -/
theorem ced_processes_at_most_head {α : Type} (st : List (String × α))
    (served : List String) (r : String) (rest : List String)
    (st' : List (String × α)) (sv' left : List String)
    (h : serve_ced st served (r :: rest) = .ok (st', sv', left)) :
    left = rest
    ∧ (∀ x, x ≠ r → containsKey st x = true → containsKey st' x = true)
    ∧ ((st' = st ∧ sv' = served)
       ∨ ∃ f, storeRemove st r = some (f, st') ∧ sv' = served ++ [r]) := by
  unfold serve_ced at h
  dsimp only at h
  rcases hrm : storeRemove st r with _ | ⟨f, st2⟩
  · rw [hrm] at h
    dsimp only at h
    by_cases hsv : served.contains r
    · rw [if_pos hsv] at h; simp at h
    · rw [if_neg hsv] at h
      obtain ⟨rfl, rfl, rfl⟩ : st = st' ∧ served = sv' ∧ rest = left := by
        simpa using h
      exact ⟨rfl, fun x _ hx => hx, Or.inl ⟨rfl, rfl⟩⟩
  · rw [hrm] at h
    dsimp only at h
    obtain ⟨rfl, rfl, rfl⟩ : st2 = st' ∧ served ++ [r] = sv' ∧ rest = left := by
      simpa using h
    refine ⟨rfl, ?_, Or.inr ⟨f, rfl, rfl⟩⟩
    intro x hx hmem
    unfold storeRemove at hrm
    rcases hre : removeEntry st r with _ | ⟨e, rest2⟩
    · rw [hre] at hrm; simp at hrm
    · rw [hre] at hrm
      obtain ⟨rfl, rfl⟩ : e.2 = f ∧ rest2 = st2 := by simpa using hrm
      obtain ⟨he1, he2⟩ := removeEntry_some st r e rest2 hre
      rw [containsKey_iff] at hmem ⊢
      rw [he2]
      exact List.mem_erase_of_ne hx |>.mpr hmem

/-- Witness for the amended C5 at the counterexample input. -/
theorem ced_processes_at_most_head_w :
    serve_ced ([("a", 0), ("b", 1)] : List (String × Nat)) [] ("a" :: ["b"])
        = .ok ([("b", 1)], ["a"], ["b"])
    ∧ (["b"] = ["b"]
      ∧ (∀ x, x ≠ "a"
          → containsKey ([("a", 0), ("b", 1)] : List (String × Nat)) x = true
          → containsKey ([("b", 1)] : List (String × Nat)) x = true)
      ∧ (((([("b", 1)] : List (String × Nat)) = [("a", 0), ("b", 1)]) ∧ ["a"] = ([] : List String))
         ∨ ∃ f, storeRemove ([("a", 0), ("b", 1)] : List (String × Nat)) "a"
              = some (f, [("b", 1)]) ∧ ["a"] = ([] : List String) ++ ["a"])) :=
  ⟨by rfl, ced_processes_at_most_head [("a", 0), ("b", 1)] [] "a" ["b"]
    [("b", 1)] ["a"] ["b"] (by rfl)⟩

/-- Counterexample to claim C7 as stated: the store holds only
"pages-1"; the GPU consumer sends the prefix request "pages-" twice.
The first request serves "pages-1" (recording that full name in the
served set); the second request's prefix refers to the already-served
file, yet the phase answers exists=false and completes without error,
because the served-set check compares the prefix string "pages-"
against the served filename "pages-1". -/
theorem gpu_pfx_after_serve_cex :
    serve_gpu ["pages-", "pages-"] ([("pages-1", 0)] : List (String × Nat)) []
      = .ok ([], ["pages-1"]) := by rfl

/-- Claim C7 amended: a request for a name that is absent from the
store and already in the served set fails with an error in the daemon
and CRIU phases; the GPU phase, when no remaining name has the
requested prefix, fails only if the prefix string itself is a member
of the served set, and otherwise answers exists=false and carries on
as if the request had not been made. -/
theorem serve_rerequest_errors {α : Type} (st : List (String × α))
    (served : List String) (n : String) (rest : List String)
    (hmiss : containsKey st n = false)
    (hnopfx : ∀ k ∈ st.map Prod.fst, ¬ starts_with k n) :
    (served.contains n = true →
      serve_ced st served (n :: rest)
          = .error "Daemon is requesting the image file multiple times"
      ∧ serve_criu (n :: rest) st served
          = .error "CRIU is requesting the image file multiple times"
      ∧ serve_gpu (n :: rest) st served
          = .error "gpu-controller is requesting the image file multiple times")
    ∧ (served.contains n = false →
      serve_gpu (n :: rest) st served = serve_gpu rest st served) := by
  have hre : removeEntry st n = none := by
    rw [removeEntry_eq_none]
    intro hmem
    rw [← containsKey_iff] at hmem
    rw [hmiss] at hmem
    exact absurd hmem (by simp)
  have hsr : storeRemove st n = none := by
    unfold storeRemove
    rw [hre]
    rfl
  have hrp : removeByPfx st n = none := (removeByPfx_eq_none_iff st n).mpr hnopfx
  constructor
  · intro hsv
    refine ⟨?_, ?_, ?_⟩
    · unfold serve_ced
      dsimp only
      rw [hsr]
      dsimp only
      rw [if_pos hsv]
    · rw [serve_criu, hsr]
      dsimp only
      rw [if_pos hsv]
    · rw [serve_gpu, hrp]
      dsimp only
      rw [if_pos hsv]
  · intro hsv
    rw [serve_gpu, hrp]
    dsimp only
    rw [if_neg (by simp only [hsv]; simp)]

/-- Witness for the amended C7: store containing only "x", served set
containing "n", request "n". -/
theorem serve_rerequest_errors_w :
    (containsKey ([("x", 0)] : List (String × Nat)) "n" = false
      ∧ ∀ k ∈ ([("x", 0)] : List (String × Nat)).map Prod.fst,
          ¬ starts_with k "n")
    ∧ ((["n"].contains "n" = true →
        serve_ced ([("x", 0)] : List (String × Nat)) ["n"] ("n" :: [])
            = .error "Daemon is requesting the image file multiple times"
        ∧ serve_criu ("n" :: []) ([("x", 0)] : List (String × Nat)) ["n"]
            = .error "CRIU is requesting the image file multiple times"
        ∧ serve_gpu ("n" :: []) ([("x", 0)] : List (String × Nat)) ["n"]
            = .error "gpu-controller is requesting the image file multiple times")
      ∧ (["n"].contains "n" = false →
        serve_gpu ("n" :: []) ([("x", 0)] : List (String × Nat)) ["n"]
          = serve_gpu [] ([("x", 0)] : List (String × Nat)) ["n"])) :=
  ⟨⟨by decide, by decide⟩,
    serve_rerequest_errors ([("x", 0)] : List (String × Nat)) ["n"] "n" []
      (by decide) (by decide)⟩

theorem read_bytes_next_full {src : List Nat} (h : 4 ≤ src.length) :
    read_bytes_next src 4 = .ok (some (src.take 4, src.drop 4)) := by
  have hbuf : (src.take 4).length = 4 := by
    rw [List.length_take]; omega
  simp only [read_bytes_next]
  rw [hbuf]
  norm_num

/-- Claim C8: `pb_read_next` returns none cleanly at end of stream,
an error for a partially present frame (truncated inside the length
prefix, right after it, or mid-body), and rejects every frame whose
declared length is not under 10 KiB (the `assert!` abort is the error
outcome of the model). -/
theorem pb_read_next_framing {α : Type} (decode : List Nat → Option α) :
    pb_read_next decode ([] : List Nat) = .ok none
    ∧ (∀ src : List Nat, 0 < src.length → src.length < 4 →
        pb_read_next decode src = .error EOF_ERR_MSG)
    ∧ (∀ src : List Nat, 4 ≤ src.length →
        get_u32_le (src.take 4) < 10 * 1024 →
        0 < get_u32_le (src.take 4) →
        src.length < 4 + get_u32_le (src.take 4) →
        pb_read_next decode src = .error EOF_ERR_MSG)
    ∧ (∀ src : List Nat, 4 ≤ src.length →
        ¬ get_u32_le (src.take 4) < 10 * 1024 →
        pb_read_next decode src
          = .error "Would read a protobuf of size more than 10KB") := by
  refine ⟨rfl, ?_, ?_, ?_⟩
  · intro src h0 h4
    have hr : read_bytes_next src 4 = .error EOF_ERR_MSG := by
      have hlen : (src.take 4).length = src.length := by
        rw [List.length_take]; omega
      simp only [read_bytes_next]
      rw [hlen, if_neg (by omega), if_neg (by omega)]
    unfold pb_read_next
    rw [hr]
  · intro src h4 hlt hpos hshort
    unfold pb_read_next
    rw [read_bytes_next_full h4]
    dsimp only
    rw [if_pos hlt]
    have hdlen : (src.drop 4).length = src.length - 4 := by
      rw [List.length_drop]
    by_cases hz : src.length - 4 = 0
    · have hr2 : read_bytes_next (src.drop 4) (get_u32_le (src.take 4))
          = .ok none := by
        simp only [read_bytes_next]
        rw [if_pos (by rw [List.length_take, hdlen]; omega)]
      rw [hr2]
    · have hr2 : read_bytes_next (src.drop 4) (get_u32_le (src.take 4))
          = .error EOF_ERR_MSG := by
        simp only [read_bytes_next]
        rw [if_neg (by rw [List.length_take, hdlen]; omega),
          if_neg (by rw [List.length_take, hdlen]; omega)]
      rw [hr2]
  · intro src h4 hge
    unfold pb_read_next
    rw [read_bytes_next_full h4]
    dsimp only
    rw [if_neg hge]

/-- Witness for C8: the empty stream, a 1-byte stream, a frame
declaring 2 body bytes but carrying only 1, and a frame declaring
10240 body bytes. -/
theorem pb_read_next_framing_w :
    pb_read_next decodeLen ([] : List Nat) = .ok none
    ∧ ((0 : Nat) < ([1] : List Nat).length ∧ ([1] : List Nat).length < 4
        ∧ pb_read_next decodeLen [1] = .error EOF_ERR_MSG)
    ∧ ((4 : Nat) ≤ ([2, 0, 0, 0, 9] : List Nat).length
        ∧ get_u32_le (([2, 0, 0, 0, 9] : List Nat).take 4) < 10 * 1024
        ∧ 0 < get_u32_le (([2, 0, 0, 0, 9] : List Nat).take 4)
        ∧ ([2, 0, 0, 0, 9] : List Nat).length
            < 4 + get_u32_le (([2, 0, 0, 0, 9] : List Nat).take 4)
        ∧ pb_read_next decodeLen [2, 0, 0, 0, 9] = .error EOF_ERR_MSG)
    ∧ ((4 : Nat) ≤ ([0, 40, 0, 0] : List Nat).length
        ∧ ¬ get_u32_le (([0, 40, 0, 0] : List Nat).take 4) < 10 * 1024
        ∧ pb_read_next decodeLen [0, 40, 0, 0]
            = .error "Would read a protobuf of size more than 10KB") :=
  ⟨(pb_read_next_framing decodeLen).1,
   ⟨by decide, by decide,
     (pb_read_next_framing decodeLen).2.1 [1] (by decide) (by decide)⟩,
   ⟨by decide, by decide, by decide, by decide,
     (pb_read_next_framing decodeLen).2.2.1 [2, 0, 0, 0, 9] (by decide)
       (by decide) (by decide) (by decide)⟩,
   ⟨by decide, by decide,
     (pb_read_next_framing decodeLen).2.2.2 [0, 40, 0, 0] (by decide)
       (by decide)⟩⟩

/-- Witness for C1 at a concrete run: one producer drain of 2 readable
bytes with page size 1 and shard pipe capacity 8, then image EOF. -/
theorem capture_markers_dense_w :
    (capture_run 1 8 [("a", 2)]).emitted.length ≤ U64_MOD
    ∧ ((capture_run 1 8 [("a", 2)]).emitted.map Marker.seq
        = List.range (capture_run 1 8 [("a", 2)]).emitted.length
      ∧ (capture_run 1 8 [("a", 2)]).emitted.countP isImageEofMarker = 1
      ∧ (capture_run 1 8 [("a", 2)]).emitted.getLast?
          = some ⟨(capture_run 1 8 [("a", 2)]).emitted.length - 1,
                  some (.ImageEof true)⟩) :=
  ⟨by decide, capture_markers_dense 1 8 [("a", 2)] (by decide)⟩

end CriuStreamer
